import Mathlib

/-
Verification development for gcode2vtk (src/gcode2vtk/gcode2vtk.py).

The program tokenizes G-code lines with two regular expressions, folds the
token sets into a point list and a connectivity list (path reconstruction),
and serializes the result as a legacy VTK PolyData file.

Numeric token values are modelled as exact rationals (Python floats are the
nearest doubles of the same decimals; every claim checked here only parses,
compares and scales these values, which the rational model reflects exactly).
A Python exception (ValueError from float()) is modelled as `none`.
-/

/-- A machine position, the triple (x, y, z). -/
abbrev Point := ℚ × ℚ × ℚ

/-- The token set built by `readGcodeLine` (the Python dictionary `output`):
the `type` key plus the optional numeric keys X, Y, Z, E, F. A key absent
from the dictionary is `none`. -/
structure TokenSet where
  type : String
  X : Option ℚ := none
  Y : Option ℚ := none
  Z : Option ℚ := none
  E : Option ℚ := none
  F : Option ℚ := none
  deriving DecidableEq

/-- Matches `(\d+)(\.\d+)?` at the head of `cs` (head is known to be a digit):
the maximal digit run, then optionally a dot followed by at least one digit. -/
def intFrac (cs : List Char) : List Char :=
  let ds := cs.takeWhile Char.isDigit
  match cs.dropWhile Char.isDigit with
  | '.' :: r2 =>
    match r2 with
    | d :: _ => if d.isDigit then ds ++ '.' :: r2.takeWhile Char.isDigit else ds
    | [] => ds
  | _ => ds

/-- Matches `(\d*)(\.\d+)` at the head of `cs`: an optional digit run, then a
mandatory dot followed by at least one digit. -/
def fracTail (cs : List Char) : Option (List Char) :=
  let ds := cs.takeWhile Char.isDigit
  match cs.dropWhile Char.isDigit with
  | '.' :: r2 =>
    match r2 with
    | d :: _ => if d.isDigit then some (ds ++ '.' :: r2.takeWhile Char.isDigit) else none
    | [] => none
  | _ => none

/-- Matches the alternation `((\d+)(\.\d+)?)|([+-]?(\d*)(\.\d+))` at the head
of `cs`, with the regex's ordered-alternative preference. -/
def numTail (cs : List Char) : Option (List Char) :=
  match cs with
  | [] => none
  | c :: rest =>
    if c.isDigit then some (intFrac cs)
    else if c = '+' ∨ c = '-' then (fracTail rest).map (fun m => c :: m)
    else fracTail cs

/-- Matches group 1 of the coordinate pattern
`[XYZE](([+-]?)(((\d+)(\.\d+)?)|([+-]?(\d*)(\.\d+))))` at the head of `cs`
(just after the axis letter): an optional leading sign, then `numTail`.
When the leading sign is present and `numTail` fails after it, the regex
backtracks to the signless reading; that reading succeeds only when the
sign-consuming one already did with the same characters, so consuming the
sign first is exact. -/
def matchNum (cs : List Char) : Option (List Char) :=
  match cs with
  | [] => none
  | c :: rest =>
    if c = '+' ∨ c = '-' then (numTail rest).map (fun m => c :: m)
    else numTail cs

/-- Value of a digit run, most significant digit first. -/
def digitsVal (ds : List Char) : Nat :=
  ds.foldl (fun n c => 10 * n + (c.toNat - 48)) 0

/-- Model of CPython `float()` on the unsigned part of a matched token:
`digits [ . digits ]` with at least one digit in total and nothing else.
The value of `a.b` is the exact rational (a * 10^k + b) / 10^k, produced in
`Rat.ofScientific` form (the shape decimal literals elaborate to). A
leftover leading sign (the doubled-sign case) or stray character is a
ValueError, modelled as `none`. -/
def pyFloatCore (cs : List Char) : Option ℚ :=
  let intDs := cs.takeWhile Char.isDigit
  match cs.dropWhile Char.isDigit with
  | [] => if intDs = [] then none else some (digitsVal intDs : ℚ)
  | '.' :: r2 =>
    let fracDs := r2.takeWhile Char.isDigit
    if r2.dropWhile Char.isDigit = [] ∧ (intDs ≠ [] ∨ fracDs ≠ []) then
      some (Rat.ofScientific (digitsVal intDs * 10 ^ fracDs.length + digitsVal fracDs)
        true fracDs.length)
    else none
  | _ => none

/-- Model of CPython `float()` on the strings group 1 of the coordinate
pattern can produce: an optional sign followed by a decimal form. -/
def pyFloatQ (cs : List Char) : Option ℚ :=
  match cs with
  | '+' :: rest => pyFloatCore rest
  | '-' :: rest => (pyFloatCore rest).map Neg.neg
  | _ => pyFloatCore cs

/-- `re.finditer` of the coordinate pattern over the line: scan left to
right; at a letter of the class `[XYZE]` try to match a number right after
it; on success record (letter, group 1) and resume after the match,
otherwise advance one character. The letter F is NOT in the class. The
fuel argument only bounds the recursion (each step consumes at least one
character, so `cs.length` fuel is always enough). -/
def findCoordAux : Nat → List Char → List (Char × List Char)
  | 0, _ => []
  | _ + 1, [] => []
  | fuel + 1, c :: rest =>
    if c = 'X' ∨ c = 'Y' ∨ c = 'Z' ∨ c = 'E' then
      match matchNum rest with
      | some m => (c, m) :: findCoordAux fuel (rest.drop m.length)
      | none => findCoordAux fuel rest
    else findCoordAux fuel rest

/-- All matches of the coordinate pattern in the line, in order. -/
def findCoordMatches (cs : List Char) : List (Char × List Char) :=
  findCoordAux cs.length cs

/-- One iteration of the match loop of `readGcodeLine`: convert group 1 with
`float()` (a ValueError propagates as `none`) and store it under the letter
key. The F branch mirrors the dead `if fullMatch[0]=="F"` test of the
source; it is unreachable because the class is `[XYZE]`. -/
def applyMatch (out : TokenSet) (m : Char × List Char) : Option TokenSet :=
  match pyFloatQ m.2 with
  | none => none
  | some v =>
    let out1 := if m.1 = 'F' then { out with F := some v } else out
    if m.1 = 'X' then some { out1 with X := some v }
    else if m.1 = 'Y' then some { out1 with Y := some v }
    else if m.1 = 'Z' then some { out1 with Z := some v }
    else if m.1 = 'E' then some { out1 with E := some v }
    else some out1

/-- `re.search` of `(G\d+)` over the line: group 0 of the leftmost match,
the letter G followed by the maximal run of at least one digit. -/
def findCommandCode : List Char → Option (List Char)
  | [] => none
  | c :: rest =>
    if c = 'G' then
      match rest with
      | d :: _ =>
        if d.isDigit then some ('G' :: rest.takeWhile Char.isDigit)
        else findCommandCode rest
      | [] => none
    else findCommandCode rest

/-- `readGcodeLine` on the character list of the line. The type pattern is
`^(;)|([G]\d+)`: the `^` anchor lets the semicolon alternative match only at
position 0, so `group(0)[0] == ";"` holds exactly when the line starts with
`;`, in which case the function returns the comment token set before any
coordinate parsing. Otherwise the type is the leftmost G-and-digits match
anywhere in the line, or `"unknown"` when the search fails, and the
coordinate loop runs. `none` models a ValueError raised by `float()` inside
that loop. -/
def readGcodeLineTokens (cs : List Char) : Option TokenSet :=
  match cs with
  | ';' :: _ => some { type := "comment" }
  | _ =>
    match findCommandCode cs with
    | some m => (findCoordMatches cs).foldlM applyMatch { type := String.mk m }
    | none => (findCoordMatches cs).foldlM applyMatch { type := "unknown" }

/-- `readGcodeLine` of the source, on a string. -/
def readGcodeLine (line : String) : Option TokenSet :=
  readGcodeLineTokens line.toList

/-- `hasCoordinate` of the source: the line contains spatial information. -/
def hasCoordinate (gcodeLine : TokenSet) : Bool :=
  gcodeLine.X.isSome || gcodeLine.Y.isSome || gcodeLine.Z.isSome

/-- `hasExtrusion` of the source. When the coordinate-and-E test passes but
E is not positive the Python function falls through and returns `None`,
modelled as `none`; the caller only tests truthiness. -/
def hasExtrusion (gcodeLine : TokenSet) : Option Bool :=
  if hasCoordinate gcodeLine && gcodeLine.E.isSome then
    if 0 < gcodeLine.E.getD 0 then some true else none
  else some false

/-- Python truthiness of a `bool`-or-`None` value. -/
def truthy : Option Bool → Bool
  | some b => b
  | none => false

/-- `getPoint` of the source: start from the current point, overwrite each
axis that has a token, and record whether any axis was seen; `none` models
the empty (falsy) tuple returned when no axis is present. -/
def getPoint (gcodeLine : TokenSet) (currPoint : Point) : Option Point :=
  let xh := match gcodeLine.X with
    | some v => (v, true)
    | none => (currPoint.1, false)
  let yh := match gcodeLine.Y with
    | some v => (v, true)
    | none => (currPoint.2.1, xh.2)
  let zh := match gcodeLine.Z with
    | some v => (v, true)
    | none => (currPoint.2.2, yh.2)
  if zh.2 then some (xh.1, yh.1, zh.1) else none

/-- The state threaded through the line loop of `readGcodeFile`. -/
structure RState where
  prevPoint : Point := (0, 0, 0)
  currPoint : Point := (0, 0, 0)
  pointList : List Point := []
  connectivity : List (Int × Int) := []
  deriving DecidableEq

/-- The state at the top of the loop of `readGcodeFile`. -/
def initState : RState := {}

/-- Position update of `readGcodeFile`: if the line describes a new point,
shift `prevPoint ← currPoint` and `currPoint ← newPoint`. -/
def updatePosition (st : RState) (t : TokenSet) : RState :=
  match getPoint t st.currPoint with
  | some newPoint => { st with prevPoint := st.currPoint, currPoint := newPoint }
  | none => st

/-- Extrusion branch of `readGcodeFile`: append `prevPoint` unless it equals
the last stored point, append `currPoint`, then append the index pair
`(len-2, len-1)` computed from the post-append length (Python ints, so the
indices are integers). -/
def emitExtrusion (st : RState) : RState :=
  let pl1 :=
    match st.pointList.getLast? with
    | some lastP =>
      if st.prevPoint ≠ lastP then st.pointList ++ [st.prevPoint] else st.pointList
    | none => st.pointList ++ [st.prevPoint]
  let pl2 := pl1 ++ [st.currPoint]
  { st with
      pointList := pl2
      connectivity := st.connectivity ++ [((pl2.length : Int) - 2, (pl2.length : Int) - 1)] }

/-- The body of the line loop of `readGcodeFile`, on an already tokenized
line: skip comments, update the positions, and emit on extrusion. -/
def processTokens (st : RState) (t : TokenSet) : RState :=
  if t.type = "comment" then st
  else
    let st1 := updatePosition st t
    if truthy (hasExtrusion t) then emitExtrusion st1 else st1

/-- The body of the line loop of `readGcodeFile` on a raw line; a
tokenization error (ValueError) propagates. -/
def processLine (st : RState) (line : String) : Option RState :=
  (readGcodeLine line).map (processTokens st)

/-- `readGcodeFile` of the source, on the list of lines of the file:
fold the loop body from the origin state and return the point list and the
connectivity list. -/
def readGcodeFile (lines : List String) : Option (List Point × List (Int × Int)) :=
  (lines.foldlM processLine initState).map (fun st => (st.pointList, st.connectivity))

/-- The text output of `write2VtkFile`, kept structured: the four fixed
header lines, the POINTS header, the scaled points (one row each), the
LINES header, and the connectivity rows. -/
structure VtkOutput where
  headerLines : List String
  pointsHeader : String
  points : List Point
  linesHeader : String
  lineRows : List String
  deriving DecidableEq

/-- Default of the `scaling` argument of `write2VtkFile` (`1e-3`). -/
def defaultScaling : ℚ := 1 / 1000

/-- `write2VtkFile` of the source: scale every coordinate by `scaling`;
a connectivity row `str((i, j))` stripped of `,()` and prefixed with `2 `
is the string `2 i j`. -/
def write2VtkFile (pointList : List Point) (connectivity : List (Int × Int))
    (scaling : ℚ) : VtkOutput :=
  { headerLines := ["# vtk DataFile Version 2.0", "Some gcode", "ASCII", "DATASET POLYDATA"]
    pointsHeader := "POINTS " ++ toString pointList.length ++ " float"
    points := pointList.map (fun p => (scaling * p.1, scaling * p.2.1, scaling * p.2.2))
    linesHeader := "LINES " ++ toString connectivity.length ++ " "
      ++ toString (3 * connectivity.length)
    lineRows := connectivity.map (fun l => "2 " ++ toString l.1 ++ " " ++ toString l.2) }

/-- The connectivity-list invariant: every stored pair is adjacent indices,
in bounds for the point list. -/
def ConnOK (pl : List Point) (conn : List (Int × Int)) : Prop :=
  ∀ p ∈ conn, p.2 = p.1 + 1 ∧ 0 ≤ p.1 ∧ p.2 ≤ (pl.length : Int) - 1

/-! ### General lemmas about the embedding -/

/-- Python truthiness of the `hasExtrusion` result is exactly `some true`. -/
theorem truthy_eq_true {o : Option Bool} : truthy o = true ↔ o = some true := by
  cases o with
  | none => simp [truthy]
  | some b => cases b <;> simp [truthy]

/-- `getPoint` succeeds exactly on lines with spatial information and then
merges the mentioned axes into the current point. -/
theorem getPoint_eq (t : TokenSet) (c : Point) :
    getPoint t c =
      if hasCoordinate t then
        some (t.X.getD c.1, t.Y.getD c.2.1, t.Z.getD c.2.2)
      else none := by
  rcases hX : t.X with _ | x <;> rcases hY : t.Y with _ | y <;> rcases hZ : t.Z with _ | z <;>
    simp [getPoint, hasCoordinate, hX, hY, hZ]

theorem updatePosition_pointList (st : RState) (t : TokenSet) :
    (updatePosition st t).pointList = st.pointList := by
  unfold updatePosition
  cases getPoint t st.currPoint <;> rfl

theorem updatePosition_connectivity (st : RState) (t : TokenSet) :
    (updatePosition st t).connectivity = st.connectivity := by
  unfold updatePosition
  cases getPoint t st.currPoint <;> rfl

theorem emitExtrusion_prevPoint (st : RState) : (emitExtrusion st).prevPoint = st.prevPoint := rfl

theorem emitExtrusion_currPoint (st : RState) : (emitExtrusion st).currPoint = st.currPoint := rfl

/-- The loop body with the let binding spelled out. -/
theorem processTokens_eq (st : RState) (t : TokenSet) :
    processTokens st t =
      if t.type = "comment" then st
      else if truthy (hasExtrusion t) then emitExtrusion (updatePosition st t)
      else updatePosition st t := rfl

/-- The point list written by the extrusion branch: `prevPoint` is appended
exactly when the list is empty or ends elsewhere, then `currPoint`. -/
theorem emitExtrusion_pointList (st : RState) :
    (emitExtrusion st).pointList =
      (if st.pointList = [] ∨ st.pointList.getLast? ≠ some st.prevPoint
       then st.pointList ++ [st.prevPoint] else st.pointList) ++ [st.currPoint] := by
  by_cases hnil : st.pointList = []
  · have hL : st.pointList.getLast? = none := by rw [hnil]; rfl
    unfold emitExtrusion
    rw [hL, if_pos (Or.inl hnil)]
  · obtain ⟨lastP, hL⟩ : ∃ a, st.pointList.getLast? = some a := by
      cases hq : st.pointList.getLast? with
      | none => exact absurd (List.getLast?_eq_none_iff.mp hq) hnil
      | some lastP => exact ⟨lastP, rfl⟩
    unfold emitExtrusion
    rw [hL]
    show (if st.prevPoint ≠ lastP then st.pointList ++ [st.prevPoint] else st.pointList)
        ++ [st.currPoint] = _
    by_cases hpe : st.prevPoint = lastP
    · rw [if_neg (not_not_intro hpe), if_neg ?side]
      case side =>
        push_neg
        exact ⟨hnil, by rw [hpe]⟩
    · rw [if_pos hpe, if_pos (Or.inr ?side)]
      case side =>
        simp only [ne_eq, Option.some.injEq]
        exact fun h => hpe h.symm

/-- The connectivity pair written by the extrusion branch is computed from
the post-append point-list length. -/
theorem emitExtrusion_connectivity (st : RState) :
    (emitExtrusion st).connectivity =
      st.connectivity ++
        [(((emitExtrusion st).pointList.length : Int) - 2,
          ((emitExtrusion st).pointList.length : Int) - 1)] := rfl

/-- The extrusion branch grows the point list, to at least two points. -/
theorem emit_length_lower (st : RState) :
    st.pointList.length + 1 ≤ (emitExtrusion st).pointList.length ∧
      2 ≤ (emitExtrusion st).pointList.length := by
  rw [emitExtrusion_pointList]
  by_cases hcond : st.pointList = [] ∨ st.pointList.getLast? ≠ some st.prevPoint
  · rw [if_pos hcond]
    simp only [List.length_append, List.length_cons, List.length_nil]
    omega
  · rw [if_neg hcond]
    push_neg at hcond
    have hpos : 0 < st.pointList.length := List.length_pos.mpr hcond.1
    simp only [List.length_append, List.length_cons, List.length_nil]
    omega

theorem connOK_emit (st : RState) (h : ConnOK st.pointList st.connectivity) :
    ConnOK (emitExtrusion st).pointList (emitExtrusion st).connectivity := by
  have hlen := emit_length_lower st
  intro p hp
  rw [emitExtrusion_connectivity] at hp
  rcases List.mem_append.mp hp with hold | hnew
  · obtain ⟨h1, h2, h3⟩ := h p hold
    refine ⟨h1, h2, ?_⟩
    have hle : (st.pointList.length : Int) + 1 ≤ ((emitExtrusion st).pointList.length : Int) := by
      exact_mod_cast hlen.1
    omega
  · have h2 : (2 : Int) ≤ ((emitExtrusion st).pointList.length : Int) := by
      exact_mod_cast hlen.2
    simp only [List.mem_singleton] at hnew
    subst hnew
    refine ⟨by omega, by omega, by omega⟩

theorem connOK_processTokens (st : RState) (t : TokenSet)
    (h : ConnOK st.pointList st.connectivity) :
    ConnOK (processTokens st t).pointList (processTokens st t).connectivity := by
  rw [processTokens_eq]
  by_cases hty : t.type = "comment"
  · rw [if_pos hty]
    exact h
  · rw [if_neg hty]
    have h' : ConnOK (updatePosition st t).pointList (updatePosition st t).connectivity := by
      rw [updatePosition_pointList, updatePosition_connectivity]
      exact h
    by_cases hext : truthy (hasExtrusion t) = true
    · rw [if_pos hext]
      exact connOK_emit _ h'
    · rw [if_neg hext]
      exact h'

theorem connOK_fold :
    ∀ (lines : List String) (st st' : RState),
      ConnOK st.pointList st.connectivity →
      List.foldlM processLine st lines = some st' →
      ConnOK st'.pointList st'.connectivity := by
  intro lines
  induction lines with
  | nil =>
    intro st st' h hf
    simp only [List.foldlM_nil] at hf
    cases hf
    exact h
  | cons l ls ih =>
    intro st st' h hf
    simp only [List.foldlM_cons] at hf
    rcases hpl : processLine st l with _ | s1
    · rw [hpl] at hf
      simp at hf
    · rw [hpl] at hf
      simp only [Option.bind_eq_bind, Option.some_bind] at hf
      have h1 : ConnOK s1.pointList s1.connectivity := by
        unfold processLine at hpl
        rcases hrl : readGcodeLine l with _ | tok
        · rw [hrl] at hpl
          simp at hpl
        · rw [hrl] at hpl
          simp only [Option.map_some'] at hpl
          cases hpl
          exact connOK_processTokens st tok h
      exact ih s1 st' h1 hf

/-- The match loop never touches the `type` key. -/
theorem applyMatch_type {out out' : TokenSet} {m : Char × List Char}
    (h : applyMatch out m = some out') : out'.type = out.type := by
  rcases hf : pyFloatQ m.2 with _ | v
  · simp [applyMatch, hf] at h
  · have hty1 : (if m.1 = 'F' then { out with F := some v } else out).type = out.type := by
      split <;> rfl
    simp only [applyMatch, hf] at h
    split at h
    · cases h; exact hty1
    · split at h
      · cases h; exact hty1
      · split at h
        · cases h; exact hty1
        · split at h
          · cases h; exact hty1
          · cases h; exact hty1

/-- Folding the match loop never touches the `type` key. -/
theorem foldApply_type :
    ∀ (ms : List (Char × List Char)) (init t : TokenSet),
      ms.foldlM applyMatch init = some t → t.type = init.type := by
  intro ms
  induction ms with
  | nil =>
    intro init t h
    simp only [List.foldlM_nil] at h
    cases h
    rfl
  | cons m ms ih =>
    intro init t h
    simp only [List.foldlM_cons] at h
    rcases ha : applyMatch init m with _ | b
    · rw [ha] at h
      simp at h
    · rw [ha] at h
      simp only [Option.bind_eq_bind, Option.some_bind] at h
      rw [ih b t h, applyMatch_type ha]

/-- The command-code search only returns tokens that start with `G`. -/
theorem findCommandCode_shape :
    ∀ {cs m : List Char}, findCommandCode cs = some m → ∃ ds, m = 'G' :: ds := by
  intro cs
  induction cs with
  | nil => intro m h; simp [findCommandCode] at h
  | cons c rest ih =>
    intro m h
    by_cases hc : c = 'G'
    · subst hc
      cases rest with
      | nil => simp [findCommandCode] at h
      | cons d rest2 =>
        by_cases hd : d.isDigit
        · simp [findCommandCode, hd] at h
          exact ⟨_, h.symm⟩
        · simp only [findCommandCode, hd, if_true, if_false, Bool.false_eq_true] at h
          exact ih h
    · simp only [findCommandCode, hc, if_false] at h
      exact ih h

/-- The command-code search fails exactly when no `G` immediately followed
by a digit occurs anywhere in the line. -/
theorem findCommandCode_none_iff (cs : List Char) :
    findCommandCode cs = none ↔
      ¬ ∃ l1 d l2, d.isDigit = true ∧ cs = l1 ++ 'G' :: d :: l2 := by
  induction cs with
  | nil =>
    simp only [findCommandCode, true_iff]
    rintro ⟨l1, d, l2, -, h⟩
    exact absurd h.symm (by simp)
  | cons c rest ih =>
    by_cases hc : c = 'G'
    · subst hc
      cases rest with
      | nil =>
        constructor
        · rintro - ⟨l1, d, l2, -, h⟩
          have := congrArg List.length h
          simp at this
          omega
        · intro a
          decide
      | cons d rest2 =>
        by_cases hd : d.isDigit
        · constructor
          · intro h
            simp [findCommandCode, hd] at h
          · intro h
            exact absurd ⟨[], d, rest2, hd, rfl⟩ h
        · rw [show findCommandCode ('G' :: d :: rest2) = findCommandCode (d :: rest2) from by
            simp [findCommandCode, hd]]
          rw [ih]
          apply not_congr
          constructor
          · rintro ⟨l1, d', l2, hd', h⟩
            exact ⟨'G' :: l1, d', l2, hd', by rw [h]; rfl⟩
          · rintro ⟨l1, d', l2, hd', h⟩
            cases l1 with
            | nil =>
              simp only [List.nil_append, List.cons.injEq] at h
              exact absurd (h.2.1 ▸ hd') (by simpa using hd)
            | cons c1 l1' =>
              simp only [List.cons_append, List.cons.injEq] at h
              exact ⟨l1', d', l2, hd', h.2⟩
    · rw [show findCommandCode (c :: rest) = findCommandCode rest from by
        simp [findCommandCode, hc]]
      rw [ih]
      apply not_congr
      constructor
      · rintro ⟨l1, d', l2, hd', h⟩
        exact ⟨c :: l1, d', l2, hd', by rw [h]; rfl⟩
      · rintro ⟨l1, d', l2, hd', h⟩
        cases l1 with
        | nil =>
          simp only [List.nil_append, List.cons.injEq] at h
          exact absurd h.1 hc
        | cons c1 l1' =>
          simp only [List.cons_append, List.cons.injEq] at h
          exact ⟨l1', d', l2, hd', h.2⟩


/-- `readGcodeLineTokens` on a non-comment line: the `type` key is the
command-code match when one exists, else `"unknown"`. -/
theorem readTokens_type {cs : List Char} {t : TokenSet}
    (h : readGcodeLineTokens cs = some t) (hne : cs.head? ≠ some ';') :
    (∀ m, findCommandCode cs = some m → t.type = String.mk m) ∧
    (findCommandCode cs = none → t.type = "unknown") := by
  unfold readGcodeLineTokens at h
  split at h
  · simp at hne
  · rcases hm : findCommandCode cs with _ | m
    · rw [hm] at h
      refine ⟨?_, fun _ => foldApply_type _ _ _ h⟩
      intro m hm'
      simp at hm'
    · rw [hm] at h
      refine ⟨?_, ?_⟩
      · intro m' hm'
        injection hm' with he
        subst he
        exact foldApply_type _ _ _ h
      · intro hnone
        simp at hnone

/-- A string starting with `G` differs from any string with another head. -/
theorem stringMk_G_ne (ds w : List Char) (hw : w.head? ≠ some 'G') :
    String.mk ('G' :: ds) ≠ String.mk w := by
  intro h
  injection h with h'
  rw [← h'] at hw
  exact hw rfl

/-! ### Claim theorems -/

/-- C1: the claim says the tokenizer extracts X, Y, Z, E and F values, with
F = 7200.0 on the example line. The coordinate regex's character class is
`[XYZE]`, which omits F, so `F7200` never matches and no F key is produced,
even though the match loop has an (unreachable) F branch: the code
evaluates to a token set with `F = none` on the claim's example. -/
theorem claim_C1_f_token_not_extracted :
    readGcodeLine "G0 F7200 X68.135 Y-.319" =
      some { type := "G0", X := some (68.135 : ℚ), Y := some (-0.319 : ℚ), Z := none,
             E := none, F := none } := rfl

/-- C5 counterexample: the claim says any one-letter-plus-digits command
code (e.g. M104) becomes the type, but the type pattern only matches the
letter `G`: tokenizing "M104 S200" yields type "unknown", not "M104". -/
theorem claim_C5_m_code_not_detected :
    readGcodeLine "M104 S200" =
        some { type := "unknown", X := none, Y := none, Z := none, E := none, F := none } ∧
      ("unknown" : String) ≠ "M104" := by decide

/-- C5 (amended): for every line that does not start with `;` and whose
tokenization succeeds, the type is the exact matched `G`-digits command
code when one occurs in the line, and `"unknown"` exactly when no `G`
immediately followed by a digit occurs anywhere; coordinate parsing
proceeds regardless, as on the example line of raw coordinates. -/
theorem claim_C5_type_detection :
    (∀ (s : String) (t : TokenSet), readGcodeLine s = some t → s.toList.head? ≠ some ';' →
        (∀ m, findCommandCode s.toList = some m → t.type = String.mk m) ∧
        (t.type = "unknown" ↔
          ¬ ∃ l1 d l2, d.isDigit = true ∧ s.toList = l1 ++ 'G' :: d :: l2)) ∧
      readGcodeLine "X4.4 Y-4.4 Z0.3 E0.33107" =
        some { type := "unknown", X := some (4.4 : ℚ), Y := some (-4.4 : ℚ),
               Z := some (0.3 : ℚ), E := some (0.33107 : ℚ), F := none } := by
  constructor
  · intro s t h hne
    have hrt := readTokens_type h hne
    refine ⟨hrt.1, ?_⟩
    rw [← findCommandCode_none_iff]
    constructor
    · intro hu
      rcases hm : findCommandCode s.toList with _ | m
      · rfl
      · exfalso
        obtain ⟨ds, rfl⟩ := findCommandCode_shape hm
        have hty := hrt.1 _ hm
        rw [hu] at hty
        exact stringMk_G_ne ds ['u', 'n', 'k', 'n', 'o', 'w', 'n'] (by decide) hty.symm
    · exact hrt.2
  · rfl

theorem claim_C5_type_detection_witness :
    readGcodeLine "T0 G28 X1" =
        some { type := "G28", X := some 1, Y := none, Z := none, E := none, F := none } ∧
      (String.toList "T0 G28 X1").head? ≠ some ';' ∧
      TokenSet.type { type := "G28", X := some 1, Y := none, Z := none, E := none, F := none }
        = String.mk ['G', '2', '8'] :=
  ⟨by decide, by decide,
    (claim_C5_type_detection.1 "T0 G28 X1"
      { type := "G28", X := some 1, Y := none, Z := none, E := none, F := none }
      (by decide) (by decide)).1 ['G', '2', '8'] (by decide)⟩

/-- C6 counterexample: the claim says the tokenizer never raises on any
malformed line, but the coordinate pattern can match a doubly signed
number (group 1 of "X--.5" is "--.5"), on which `float()` raises a
ValueError (modelled as `none`); the source itself warns about this crash
in a comment. -/
theorem claim_C6_tokenizer_can_raise : readGcodeLine "X--.5" = none := by decide

/-- C6 (amended): on the claim's example line the bare axis letter is
silently skipped — no error, X is not populated, and the line's type "G0"
and well-formed token Y = -0.319 are still extracted (F is not extracted,
its letter not being in the coordinate class); but the tokenizer can raise
on a malformed line whose matched token carries two signs, such as
"X--.5", so it does not hold that it never raises. -/
theorem claim_C6_malformed_axis_skipped :
    readGcodeLine "G0 F7200 X Y-.319" =
      some { type := "G0", X := none, Y := some (-0.319 : ℚ), Z := none, E := none,
             F := none } := rfl

/-- C8: a line starting with `;` tokenizes to the bare comment token set —
no coordinate fields whatever trails — and the reconstruction loop passes
the state through unchanged on it. -/
theorem claim_C8_comment_skip :
    ∀ s : String, s.toList.head? = some ';' →
      readGcodeLine s =
          some { type := "comment", X := none, Y := none, Z := none, E := none, F := none } ∧
      ∀ st : RState, processLine st s = some st := by
  intro s hs
  obtain ⟨rest, hr⟩ : ∃ rest, s.toList = ';' :: rest := by
    cases hc : s.toList with
    | nil => rw [hc] at hs; cases hs
    | cons c rest =>
      rw [hc] at hs
      simp only [List.head?_cons, Option.some.injEq] at hs
      exact ⟨rest, by rw [hs]⟩
  have hread : readGcodeLine s = some { type := "comment" } := by
    unfold readGcodeLine
    rw [hr]
    rfl
  refine ⟨hread, ?_⟩
  intro st
  unfold processLine
  rw [hread]
  rfl

theorem claim_C8_comment_skip_witness :
    (String.toList "; X1 E2 G1").head? = some ';' ∧
      readGcodeLine "; X1 E2 G1" =
        some { type := "comment", X := none, Y := none, Z := none, E := none, F := none } ∧
      processLine initState "; X1 E2 G1" = some initState :=
  ⟨by decide, (claim_C8_comment_skip "; X1 E2 G1" (by decide)).1,
    (claim_C8_comment_skip "; X1 E2 G1" (by decide)).2 initState⟩

/-- C10: the comment marker is recognized only as the very first character
of the line (the `^` anchor), while a G-digits command code is recognized
anywhere: a line with whitespace before `;` is not a comment, and a line
whose first G-digits occurrence comes after other text still gets that
occurrence as its type. -/
theorem claim_C10_comment_anchor :
    (∀ (s : String) (t : TokenSet), readGcodeLine s = some t →
        (t.type = "comment" ↔ s.toList.head? = some ';')) ∧
      readGcodeLine " ;G5" =
        some { type := "G5", X := none, Y := none, Z := none, E := none, F := none } ∧
      readGcodeLine "go home G28 X1" =
        some { type := "G28", X := some 1, Y := none, Z := none, E := none, F := none } := by
  refine ⟨?_, by decide, by decide⟩
  intro s t h
  by_cases hs : s.toList.head? = some ';'
  · obtain ⟨rest, hr⟩ : ∃ rest, s.toList = ';' :: rest := by
      cases hc : s.toList with
      | nil => rw [hc] at hs; cases hs
      | cons c rest =>
        rw [hc] at hs
        simp only [List.head?_cons, Option.some.injEq] at hs
        exact ⟨rest, by rw [hs]⟩
    have hread : readGcodeLine s = some { type := "comment" } := by
      unfold readGcodeLine
      rw [hr]
      rfl
    rw [hread] at h
    cases h
    exact ⟨fun _ => hs, fun _ => rfl⟩
  · have hrt := readTokens_type h hs
    constructor
    · intro hc
      exfalso
      rcases hm : findCommandCode s.toList with _ | m
      · have hty := hrt.2 hm
        rw [hc] at hty
        exact absurd hty (by decide)
      · obtain ⟨ds, rfl⟩ := findCommandCode_shape hm
        have hty := hrt.1 _ hm
        rw [hc] at hty
        exact stringMk_G_ne ds ['c', 'o', 'm', 'm', 'e', 'n', 't'] (by decide) hty.symm
    · intro hcontra
      exact absurd hcontra hs

theorem claim_C10_comment_anchor_witness :
    readGcodeLine ";x" =
        some { type := "comment", X := none, Y := none, Z := none, E := none, F := none } ∧
      (TokenSet.type { type := "comment" } = "comment" ↔
        (String.toList ";x").head? = some ';') :=
  ⟨by decide,
    claim_C10_comment_anchor.1 ";x"
      { type := "comment", X := none, Y := none, Z := none, E := none, F := none }
      (by decide)⟩

/-- C2: on every extrusion event, `prevPoint` is appended exactly when the
point list is empty or its last entry differs from it, then `currPoint` is
appended unconditionally, then the connectivity pair `(len-2, len-1)` is
appended using the post-append length; two consecutive extrusion moves
sharing their middle point yield points [A, B, C] and pairs [(0,1), (1,2)]
with no duplicated shared point. -/
theorem claim_C2_extrusion_append :
    (∀ (st : RState) (t : TokenSet), t.type ≠ "comment" → truthy (hasExtrusion t) = true →
        (processTokens st t).pointList =
          (if st.pointList = [] ∨
              st.pointList.getLast? ≠ some (updatePosition st t).prevPoint
           then st.pointList ++ [(updatePosition st t).prevPoint]
           else st.pointList) ++ [(updatePosition st t).currPoint] ∧
        (processTokens st t).connectivity =
          st.connectivity ++
            [(((processTokens st t).pointList.length : Int) - 2,
              ((processTokens st t).pointList.length : Int) - 1)]) ∧
      readGcodeFile ["G1 X1 Y1 E1", "G1 X2 Y2 E1"] =
        some ([((0 : ℚ), (0 : ℚ), (0 : ℚ)), (1, 1, 0), (2, 2, 0)], [(0, 1), (1, 2)]) := by
  refine ⟨?_, by decide⟩
  intro st t hty hext
  have hpt : processTokens st t = emitExtrusion (updatePosition st t) := by
    rw [processTokens_eq, if_neg hty, if_pos hext]
  rw [hpt]
  constructor
  · rw [emitExtrusion_pointList, updatePosition_pointList]
  · rw [emitExtrusion_connectivity, updatePosition_connectivity]

theorem claim_C2_extrusion_append_witness :
    TokenSet.type { type := "G1", X := some 1, E := some 1 } ≠ "comment" ∧
      truthy (hasExtrusion { type := "G1", X := some 1, E := some 1 }) = true ∧
      (processTokens initState { type := "G1", X := some 1, E := some 1 }).pointList =
        [((0 : ℚ), (0 : ℚ), (0 : ℚ)), ((1 : ℚ), (0 : ℚ), (0 : ℚ))] ∧
      (processTokens initState { type := "G1", X := some 1, E := some 1 }).connectivity =
        [((0 : Int), (1 : Int))] :=
  ⟨by decide, by decide,
    (claim_C2_extrusion_append.1 initState { type := "G1", X := some 1, E := some 1 }
      (by decide) (by decide)).1,
    (claim_C2_extrusion_append.1 initState { type := "G1", X := some 1, E := some 1 }
      (by decide) (by decide)).2⟩

/-- C3: a line is treated as an extrusion exactly when it has at least one
of X, Y, Z and an E value strictly greater than zero; a line with no X, Y
or Z leaves the state untouched (no point or connectivity emitted), even
when E > 0. -/
theorem claim_C3_extrusion_condition :
    ∀ (t : TokenSet) (st : RState),
      (truthy (hasExtrusion t) = true ↔
        (hasCoordinate t = true ∧ ∃ e, t.E = some e ∧ 0 < e)) ∧
      (hasCoordinate t = false → processTokens st t = st) := by
  intro t st
  constructor
  · rw [truthy_eq_true]
    unfold hasExtrusion
    rcases hE : t.E with _ | e
    · simp [hE]
    · rcases hC : hasCoordinate t with _ | _
      · simp [hC]
      · by_cases he : (0 : ℚ) < e
        · simp [hC, hE, he]
        · simp [hC, hE, he]
    -- done with the iff
  · intro hC
    have hup : updatePosition st t = st := by
      unfold updatePosition
      rw [getPoint_eq, if_neg (by simp [hC])]
    have hext : hasExtrusion t = some false := by
      unfold hasExtrusion
      rw [hC]
      simp
    rw [processTokens_eq, hup, hext]
    split <;> rfl

theorem claim_C3_extrusion_condition_witness :
    hasCoordinate { type := "G1", E := some 2 } = false ∧
      TokenSet.E { type := "G1", E := some 2 } = some (2 : ℚ) ∧ (0 : ℚ) < 2 ∧
      processTokens initState { type := "G1", E := some 2 } = initState :=
  ⟨by decide, by decide, by norm_num,
    (claim_C3_extrusion_condition { type := "G1", E := some 2 } initState).2 (by decide)⟩

/-- C4: both positions start at the origin; a line with at least one of X,
Y, Z shifts `prevPoint ← currPoint` and merges the mentioned axes over the
current values (unmentioned axes carried over, never reset); a line with
none of X, Y, Z leaves both positions unchanged. -/
theorem claim_C4_position_update :
    initState.prevPoint = ((0 : ℚ), (0 : ℚ), (0 : ℚ)) ∧
      initState.currPoint = ((0 : ℚ), (0 : ℚ), (0 : ℚ)) ∧
      ∀ (st : RState) (t : TokenSet), t.type ≠ "comment" →
        (hasCoordinate t = true →
          (processTokens st t).prevPoint = st.currPoint ∧
          (processTokens st t).currPoint =
            (t.X.getD st.currPoint.1, t.Y.getD st.currPoint.2.1,
              t.Z.getD st.currPoint.2.2)) ∧
        (hasCoordinate t = false →
          (processTokens st t).prevPoint = st.prevPoint ∧
          (processTokens st t).currPoint = st.currPoint) := by
  refine ⟨rfl, rfl, ?_⟩
  intro st t hty
  constructor
  · intro hC
    have hup : updatePosition st t =
        { st with prevPoint := st.currPoint,
                  currPoint := (t.X.getD st.currPoint.1, t.Y.getD st.currPoint.2.1,
                    t.Z.getD st.currPoint.2.2) } := by
      unfold updatePosition
      rw [getPoint_eq, if_pos hC]
    rw [processTokens_eq, if_neg hty, hup]
    by_cases hext : truthy (hasExtrusion t) = true
    · rw [if_pos hext]
      exact ⟨rfl, rfl⟩
    · rw [if_neg hext]
      exact ⟨rfl, rfl⟩
  · intro hC
    have hup : updatePosition st t = st := by
      unfold updatePosition
      rw [getPoint_eq, if_neg (by simp [hC])]
    have hext : hasExtrusion t = some false := by
      unfold hasExtrusion
      rw [hC]
      simp
    rw [processTokens_eq, if_neg hty, hup, hext]
    exact ⟨rfl, rfl⟩

theorem claim_C4_position_update_witness :
    TokenSet.type { type := "G1", X := some 5 } ≠ "comment" ∧
      hasCoordinate { type := "G1", X := some 5 } = true ∧
      (processTokens initState { type := "G1", X := some 5 }).prevPoint =
        ((0 : ℚ), (0 : ℚ), (0 : ℚ)) ∧
      (processTokens initState { type := "G1", X := some 5 }).currPoint =
        ((5 : ℚ), (0 : ℚ), (0 : ℚ)) :=
  ⟨by decide, by decide,
    ((claim_C4_position_update.2.2 initState { type := "G1", X := some 5 }
      (by decide)).1 (by decide)).1,
    ((claim_C4_position_update.2.2 initState { type := "G1", X := some 5 }
      (by decide)).1 (by decide)).2⟩

/-- C7: for N input points, M connectivity pairs and scale factor s, the
writer's POINTS header counts N, the LINES header is "LINES M 3M", each
connectivity row is "2 i j", and every written coordinate is the input
coordinate multiplied by s; the default scale is 1e-3. -/
theorem claim_C7_vtk_writer :
    ∀ (pointList : List Point) (connectivity : List (Int × Int)) (scaling : ℚ),
      (write2VtkFile pointList connectivity scaling).pointsHeader =
          "POINTS " ++ toString pointList.length ++ " float" ∧
      (write2VtkFile pointList connectivity scaling).linesHeader =
          "LINES " ++ toString connectivity.length ++ " "
            ++ toString (3 * connectivity.length) ∧
      (write2VtkFile pointList connectivity scaling).points.length = pointList.length ∧
      (write2VtkFile pointList connectivity scaling).lineRows.length = connectivity.length ∧
      (∀ k : Fin pointList.length,
        (write2VtkFile pointList connectivity scaling).points[(k : ℕ)]? =
          some (scaling * (pointList.get k).1, scaling * (pointList.get k).2.1,
            scaling * (pointList.get k).2.2)) ∧
      (∀ k : Fin connectivity.length,
        (write2VtkFile pointList connectivity scaling).lineRows[(k : ℕ)]? =
          some ("2 " ++ toString (connectivity.get k).1 ++ " "
            ++ toString (connectivity.get k).2)) ∧
      defaultScaling = 1 / 1000 := by
  intro pointList connectivity scaling
  refine ⟨rfl, rfl, by simp [write2VtkFile], by simp [write2VtkFile], ?_, ?_, rfl⟩
  · intro k
    simp [write2VtkFile, List.getElem?_eq_getElem k.isLt, List.get_eq_getElem]
  · intro k
    simp [write2VtkFile, List.getElem?_eq_getElem k.isLt, List.get_eq_getElem]

/-- C9: after processing any sequence of lines, every connectivity pair
(i, j) satisfies j = i + 1, i ≥ 0 and j ≤ len(pointList) - 1, so every
stored index is valid for the point list; this holds at every intermediate
step too, each prefix of the input being itself a sequence of lines. -/
theorem claim_C9_connectivity_invariant :
    ∀ (lines : List String) (res : List Point × List (Int × Int)),
      readGcodeFile lines = some res →
      ∀ p ∈ res.2, p.2 = p.1 + 1 ∧ 0 ≤ p.1 ∧ p.2 ≤ (res.1.length : Int) - 1 := by
  intro lines res h
  unfold readGcodeFile at h
  rcases hf : List.foldlM processLine initState lines with _ | st'
  · rw [hf] at h
    simp at h
  · rw [hf] at h
    simp only [Option.map_some'] at h
    cases h
    exact connOK_fold lines initState st' (by intro p hp; simp [initState] at hp) hf

theorem claim_C9_connectivity_invariant_witness :
    readGcodeFile ["G1 X1 E1"] =
        some ([((0 : ℚ), (0 : ℚ), (0 : ℚ)), ((1 : ℚ), (0 : ℚ), (0 : ℚ))],
          [((0 : Int), (1 : Int))]) ∧
      ∀ p ∈ ([((0 : Int), (1 : Int))] : List (Int × Int)),
        p.2 = p.1 + 1 ∧ 0 ≤ p.1 ∧
          p.2 ≤ (([((0 : ℚ), (0 : ℚ), (0 : ℚ)), ((1 : ℚ), (0 : ℚ), (0 : ℚ))] : List Point).length
            : Int) - 1 :=
  ⟨by decide,
    claim_C9_connectivity_invariant ["G1 X1 E1"]
      ([((0 : ℚ), (0 : ℚ), (0 : ℚ)), ((1 : ℚ), (0 : ℚ), (0 : ℚ))], [((0 : Int), (1 : Int))])
      (by decide)⟩
